import Mathlib

/-!
Shallow embedding of `liquid-schema-plugin` (`src/plugin/index.js`) and proofs
about its claims.  Strings are modelled as `List Char`; Node path primitives
(`path.resolve`, `path.relative`, `path.join`, `path.dirname`, `path.basename`,
`path.extname`) are modelled for POSIX paths; the module system (`require`,
`require.resolve`, `require.cache`) is modelled by an explicit environment and
an explicit cache.  JavaScript regular-expression matching for the three
regexes in the source is modelled by a small backtracking engine covering
exactly the constructs those regexes use.
-/

namespace LSP

/-- Character constants written via code points so that quotes and braces never
appear as character literals. -/
def apos : Char := Char.ofNat 39

/-- Double-quote character. -/
def quoteC : Char := Char.ofNat 34

/-- Backslash character. -/
def bslash : Char := Char.ofNat 92

/-- Drop `p` from the front of `s` when `p` is a prefix; `none` otherwise. -/
def dropPref : List Char → List Char → Option (List Char)
  | [], s => some s
  | _, [] => none
  | p :: ps, c :: cs => if p = c then dropPref ps cs else none

/-- Whether `pre` is a prefix of `s` (via `dropPref`). -/
def startsWith (pre s : List Char) : Bool := (dropPref pre s).isSome

/-- Whether `sub` occurs as a contiguous substring of `s`. -/
def containsSub (sub : List Char) : List Char → Bool
  | [] => startsWith sub []
  | c :: cs => startsWith sub (c :: cs) || containsSub sub cs

/-- JavaScript `s.replace(tok, repl)` with a string pattern: replace the first
occurrence of `tok` only. -/
def strReplaceFirst (tok repl : List Char) : List Char → List Char
  | [] =>
    match dropPref tok [] with
    | some rest => repl ++ rest
    | none => []
  | c :: cs =>
    match dropPref tok (c :: cs) with
    | some rest => repl ++ rest
    | none => c :: strReplaceFirst tok repl cs

/-- Split a path string on the separator character. -/
def splitSlash : List Char → List (List Char)
  | [] => [[]]
  | c :: cs =>
    let r := splitSlash cs
    if c = '/' then [] :: r
    else
      match r with
      | [] => [[c]]
      | seg :: rest => (c :: seg) :: rest

/-- Join segments with a separator. -/
def joinSegs (sep : List Char) : List (List Char) → List Char
  | [] => []
  | [s] => s
  | s :: rest => s ++ sep ++ joinSegs sep rest

/-- Normalisation stack for absolute paths: empty and `.` segments vanish and
`..` pops (at the root it vanishes). -/
def normStack (acc : List (List Char)) : List (List Char) → List (List Char)
  | [] => acc.reverse
  | seg :: rest =>
    if seg = [] ∨ seg = ['.'] then normStack acc rest
    else if seg = ['.', '.'] then
      match acc with
      | [] => normStack [] rest
      | _ :: acc2 => normStack acc2 rest
    else normStack (seg :: acc) rest

/-- Normalisation stack for relative paths: leading `..` segments survive. -/
def normStackRel (acc : List (List Char)) : List (List Char) → List (List Char)
  | [] => acc.reverse
  | seg :: rest =>
    if seg = [] ∨ seg = ['.'] then normStackRel acc rest
    else if seg = ['.', '.'] then
      match acc with
      | [] => normStackRel [['.', '.']] rest
      | top :: acc2 =>
        if top = ['.', '.'] then normStackRel (seg :: top :: acc2) rest
        else normStackRel acc2 rest
    else normStackRel (seg :: acc) rest

/-- Whether a path is absolute. -/
def isAbs : List Char → Bool
  | c :: _ => c = '/'
  | [] => false

/-- Model of Node `path.resolve(base, p)` for an absolute `base`. -/
def pathResolve (base p : List Char) : List Char :=
  if isAbs p then '/' :: joinSegs ['/'] (normStack [] (splitSlash p))
  else '/' :: joinSegs ['/'] (normStack [] (splitSlash (base ++ '/' :: p)))

/-- Drop the longest common prefix of two segment lists. -/
def dropCommon : List (List Char) → List (List Char) → List (List Char) × List (List Char)
  | a :: as, b :: bs => if a = b then dropCommon as bs else (a :: as, b :: bs)
  | as, bs => (as, bs)

/-- Model of Node `path.relative(fromP, toP)` for absolute arguments. -/
def pathRelative (fromP toP : List Char) : List Char :=
  let f := normStack [] (splitSlash fromP)
  let t := normStack [] (splitSlash toP)
  let p := dropCommon f t
  joinSegs ['/'] (p.1.map (fun _ => ['.', '.']) ++ p.2)

/-- Model of Node `path.join(a, b)`. -/
def pathJoin (a b : List Char) : List Char :=
  let segs := normStackRel [] (splitSlash (a ++ '/' :: b))
  let j := if isAbs a then '/' :: joinSegs ['/'] segs else joinSegs ['/'] segs
  if j = [] then ['.'] else j

/-- Model of Node `path.dirname`. -/
def pathDirname (p : List Char) : List Char :=
  let segs := splitSlash p
  let j := joinSegs ['/'] segs.dropLast
  if segs.length ≤ 1 then (if isAbs p then ['/'] else ['.'])
  else if j = [] then (if isAbs p then ['/'] else ['.'])
  else j

/-- Model of Node `path.basename(p, ext)`: the part after the last separator,
with `ext` stripped when it is a proper suffix. -/
def pathBasename (p ext : List Char) : List Char :=
  let b := (splitSlash p).getLastD []
  if ext.length < b.length ∧ ext.isSuffixOf b then b.take (b.length - ext.length) else b

/-- Index of the last occurrence of a dot in a segment. -/
def lastDotIdx (b : List Char) : Option Nat :=
  (List.range b.length).foldl (fun acc i => if b.get? i = some '.' then some i else acc) none

/-- Model of Node `path.extname`. -/
def pathExtname (p : List Char) : List Char :=
  let b := (splitSlash p).getLastD []
  match lastDotIdx b with
  | some i => if 0 < i then b.drop i else []
  | none => []

/-- Opening brace character. -/
def braceL : Char := Char.ofNat 123

/-- Closing brace character. -/
def braceR : Char := Char.ofNat 125

/-- JSON data values, the results of `JSON.parse` and the payloads a schema
module may export.  Numbers are modelled as integers (the development only
evaluates integral numbers). -/
inductive JSON where
  | null
  | bool (b : Bool)
  | num (n : Int)
  | str (s : List Char)
  | arr (vs : List JSON)
  | obj (fields : List (List Char × JSON))

/-- JavaScript values as the plugin observes a loaded schema module: plain
data, `undefined`, or a generator function taking the file base name and the
parsed inline contents (itself JSON data, `null` when absent or unparsable)
and returning another such value. -/
inductive JSValue where
  | data (j : JSON)
  | undef
  | func (f : List Char → JSON → JSValue)

instance : Inhabited JSON := ⟨JSON.null⟩

instance : Inhabited JSValue := ⟨JSValue.undef⟩

/-- JavaScript `typeof` on JSON data: `null` and arrays have typeof
`object`. -/
def jsonTypeof : JSON → List Char
  | .null => "object".data
  | .bool _ => "boolean".data
  | .num _ => "number".data
  | .str _ => "string".data
  | .arr _ => "object".data
  | .obj _ => "object".data

/-- JavaScript `typeof`. -/
def jsTypeof : JSValue → List Char
  | .data j => jsonTypeof j
  | .undef => "undefined".data
  | .func _ => "function".data

/-- JavaScript truthiness on JSON data. -/
def jsonTruthy : JSON → Bool
  | .null => false
  | .bool b => b
  | .num n => n != 0
  | .str s => s != []
  | .arr _ => true
  | .obj _ => true

/-- JavaScript truthiness. -/
def jsTruthy : JSValue → Bool
  | .data j => jsonTruthy j
  | .undef => false
  | .func _ => true

mutual

/-- JavaScript `String(v)` coercion on JSON data, as used by template
literals; arrays join their elements with commas. -/
def jsonDisplay : JSON → List Char
  | .null => "null".data
  | .bool true => "true".data
  | .bool false => "false".data
  | .num n => (toString n).data
  | .str s => s
  | .arr vs => jsonDisplayList vs
  | .obj _ => "[object Object]".data

/-- Array elements joined by commas for `String(array)`; a `null` element
displays as empty, as in `Array.prototype.join`. -/
def jsonDisplayList : List JSON → List Char
  | [] => []
  | [.null] => []
  | [v] => jsonDisplay v
  | .null :: rest => ',' :: jsonDisplayList rest
  | v :: rest => jsonDisplay v ++ ',' :: jsonDisplayList rest

end

/-- JavaScript `String(v)` coercion; the source text of a function is
abbreviated. -/
def jsToDisplay : JSValue → List Char
  | .data j => jsonDisplay j
  | .undef => "undefined".data
  | .func _ => "function".data

/-- Indentation produced by `JSON.stringify(-, null, 4)` at depth `n`. -/
def indentN (n : Nat) : List Char := List.replicate (4 * n) ' '

/-- Escape a string for JSON output (common escapes modelled). -/
def jsonEscape : List Char → List Char
  | [] => []
  | c :: cs =>
    if c = quoteC then bslash :: quoteC :: jsonEscape cs
    else if c = bslash then bslash :: bslash :: jsonEscape cs
    else if c = '\n' then bslash :: 'n' :: jsonEscape cs
    else if c = '\t' then bslash :: 't' :: jsonEscape cs
    else if c = '\r' then bslash :: 'r' :: jsonEscape cs
    else c :: jsonEscape cs

/-- Quote a string for JSON output. -/
def jsonQuote (s : List Char) : List Char := quoteC :: jsonEscape s ++ [quoteC]

mutual

/-- Model of `JSON.stringify(j, null, 4)` on JSON data at depth `d`:
four-space indentation, each array item or object member on its own line. -/
def jstr (d : Nat) : JSON → List Char
  | .null => "null".data
  | .bool true => "true".data
  | .bool false => "false".data
  | .num n => (toString n).data
  | .str s => jsonQuote s
  | .arr [] => "[]".data
  | .arr (v :: vs) =>
    '[' :: '\n' :: (jstrArrItems d (v :: vs) ++ '\n' :: (indentN d ++ "]".data))
  | .obj [] => "\x7b\x7d".data
  | .obj (f :: fs) =>
    "\x7b\n".data ++ joinSegs (",\n".data) (jstrObjItems d (f :: fs))
      ++ '\n' :: (indentN d ++ "\x7d".data)

/-- Array items for `jstr`, separated by comma-newline. -/
def jstrArrItems (d : Nat) : List JSON → List Char
  | [] => []
  | [v] => indentN (d + 1) ++ jstr (d + 1) v
  | v :: rest => indentN (d + 1) ++ jstr (d + 1) v ++ ",\n".data ++ jstrArrItems d rest

/-- Object members for `jstr`. -/
def jstrObjItems (d : Nat) : List (List Char × JSON) → List (List Char)
  | [] => []
  | (k, v) :: rest =>
    (indentN (d + 1) ++ jsonQuote k ++ ": ".data ++ jstr (d + 1) v) :: jstrObjItems d rest

end

/-- Model of `JSON.stringify(v, null, 4)` on a JavaScript value; `undefined`
and functions stringify to `undefined`, modelled as `none`. -/
def jstrTop : JSValue → Option (List Char)
  | .data j => some (jstr 0 j)
  | .undef => none
  | .func _ => none

/-- JSON whitespace. -/
def isWsChar (c : Char) : Bool := c = ' ' || c = '\t' || c = '\n' || c = '\r'

/-- Drop leading JSON whitespace. -/
def skipWs (s : List Char) : List Char := s.dropWhile isWsChar

/-- Decimal digit test. -/
def isDigitC (c : Char) : Bool := '0' ≤ c && c ≤ '9'

/-- Value of a digit string. -/
def digitsToNat (ds : List Char) : Nat :=
  ds.foldl (fun acc c => 10 * acc + (c.toNat - 48)) 0

/-- Parse a JSON string body after the opening quote; returns the unescaped
content and the rest after the closing quote. -/
def parseJStringBody : List Char → Option (List Char × List Char)
  | [] => none
  | c :: cs =>
    if c = quoteC then some ([], cs)
    else if c = bslash then
      match cs with
      | [] => none
      | e :: cs2 =>
        let dec : Option Char :=
          if e = quoteC then some quoteC
          else if e = bslash then some bslash
          else if e = '/' then some '/'
          else if e = 'n' then some '\n'
          else if e = 't' then some '\t'
          else if e = 'r' then some '\r'
          else none
        match dec with
        | none => none
        | some d =>
          match parseJStringBody cs2 with
          | some p => some (d :: p.1, p.2)
          | none => none
    else
      match parseJStringBody cs with
      | some p => some (c :: p.1, p.2)
      | none => none

mutual

/-- Fuel-driven model of `JSON.parse` on one value: literals, integers,
strings, arrays and objects (fractional and exponent number forms are not
modelled; the development only evaluates integral numbers). -/
def parseJVal : Nat → List Char → Option (JSON × List Char)
  | 0, _ => none
  | fuel + 1, s =>
    match dropPref ("null".data) s with
    | some rest => some (.null, rest)
    | none =>
      match dropPref ("true".data) s with
      | some rest => some (.bool true, rest)
      | none =>
        match dropPref ("false".data) s with
        | some rest => some (.bool false, rest)
        | none =>
          match s with
          | [] => none
          | c :: cs =>
            if c = quoteC then
              match parseJStringBody cs with
              | some p => some (.str p.1, p.2)
              | none => none
            else if c = '[' then
              match skipWs cs with
              | d :: rest =>
                if d = ']' then some (.arr [], rest)
                else
                  match parseJElems fuel (skipWs cs) with
                  | some p => some (.arr p.1, p.2)
                  | none => none
              | [] => none
            else if c = braceL then
              match skipWs cs with
              | d :: rest =>
                if d = braceR then some (.obj [], rest)
                else
                  match parseJFields fuel (skipWs cs) with
                  | some p => some (.obj p.1, p.2)
                  | none => none
              | [] => none
            else if c = '-' then
              match cs.takeWhile isDigitC with
              | [] => none
              | ds => some (.num (-(digitsToNat ds : Int)), cs.dropWhile isDigitC)
            else if isDigitC c then
              some (.num ((digitsToNat ((c :: cs).takeWhile isDigitC) : Nat) : Int),
                (c :: cs).dropWhile isDigitC)
            else none

/-- Comma-separated array elements up to the closing bracket. -/
def parseJElems : Nat → List Char → Option (List JSON × List Char)
  | 0, _ => none
  | fuel + 1, s =>
    match parseJVal fuel s with
    | none => none
    | some (v, r) =>
      match skipWs r with
      | c :: r2 =>
        if c = ',' then
          match parseJElems fuel (skipWs r2) with
          | some p => some (v :: p.1, p.2)
          | none => none
        else if c = ']' then some ([v], r2)
        else none
      | [] => none

/-- Comma-separated object members up to the closing brace. -/
def parseJFields : Nat → List Char → Option (List (List Char × JSON) × List Char)
  | 0, _ => none
  | fuel + 1, s =>
    match s with
    | c :: cs =>
      if c = quoteC then
        match parseJStringBody cs with
        | none => none
        | some (key, r) =>
          match skipWs r with
          | d :: r2 =>
            if d = ':' then
              match parseJVal fuel (skipWs r2) with
              | none => none
              | some (v, r3) =>
                match skipWs r3 with
                | e :: r4 =>
                  if e = ',' then
                    match parseJFields fuel (skipWs r4) with
                    | some p => some ((key, v) :: p.1, p.2)
                    | none => none
                  else if e = braceR then some ([(key, v)], r4)
                  else none
                | [] => none
            else none
          | [] => none
      else none
    | [] => none

end

/-- Model of `JSON.parse(s)`: parse one value surrounded by whitespace;
`none` models a thrown `SyntaxError`. -/
def jsonParse (s : List Char) : Option JSON :=
  match parseJVal (3 * s.length + 3) (skipWs s) with
  | some (v, rest) => if skipWs rest = [] then some v else none
  | none => none

/-- Character classes appearing in the source's regexes: `.` (any character
except line terminators), `[\s\S]` (any character), and `\s` (whitespace;
the common ASCII subset of the JavaScript class is modelled). -/
inductive CharClass where
  | anyNoNL
  | anyChar
  | wsp
  deriving DecidableEq

/-- Membership in a character class. -/
def clsMem : CharClass → Char → Bool
  | .anyNoNL, c => !(c = '\n' || c = '\r')
  | .anyChar, _ => true
  | .wsp, c => c = ' ' || c = '\t' || c = '\n' || c = '\r' || c = Char.ofNat 11 || c = Char.ofNat 12

/-- Regular expressions over exactly the constructs used by the three regexes
in the source: literals, greedy starred character classes, concatenation,
alternation, greedy option, and numbered capture groups. -/
inductive RE where
  | eps
  | lit (s : List Char)
  | starC (c : CharClass)
  | cat (a b : RE)
  | alt (a b : RE)
  | opt (a : RE)
  | grp (i : Nat) (a : RE)

/-- Sequence a list of regex pieces. -/
def reSeq (l : List RE) : RE := l.foldr RE.cat RE.eps

/-- Greedy backtracking: try the continuation at `n`, then `n - 1`, … then
`0` consumed characters. -/
def tryFrom (k : Nat → Option α) : Nat → Option α
  | 0 => k 0
  | n + 1 =>
    match k (n + 1) with
    | some r => some r
    | none => tryFrom k n

/-- Backtracking matcher in continuation-passing style, with JavaScript
semantics: greedy stars and options, leftmost alternatives, and capture
groups recorded on the successful path (latest first). -/
def reMatch : RE → List Char → List (Nat × List Char) → (List Char → List (Nat × List Char) → Option α) → Option α
  | .eps, s, caps, k => k s caps
  | .lit l, s, caps, k =>
    match dropPref l s with
    | some rest => k rest caps
    | none => none
  | .starC c, s, caps, k => tryFrom (fun n => k (s.drop n) caps) ((s.takeWhile (clsMem c)).length)
  | .cat a b, s, caps, k => reMatch a s caps (fun s2 caps2 => reMatch b s2 caps2 k)
  | .alt a b, s, caps, k =>
    match reMatch a s caps k with
    | some r => some r
    | none => reMatch b s caps k
  | .opt a, s, caps, k =>
    match reMatch a s caps k with
    | some r => some r
    | none => k s caps
  | .grp i a, s, caps, k =>
    reMatch a s caps (fun s2 caps2 => k s2 ((i, s.take (s.length - s2.length)) :: caps2))

/-- Search for the leftmost match: `rev` is the reversed prefix already
skipped.  On success returns (prefix before the match, matched text, rest
after the match, captures). -/
def reSearchAux (re : RE) : List Char → List Char → Option (List Char × List Char × List Char × List (Nat × List Char))
  | rev, [] =>
    match reMatch re [] [] (fun rest caps => some (rest, caps)) with
    | some (rest, caps) => some (rev.reverse, [], rest, caps)
    | none => none
  | rev, c :: s2 =>
    match reMatch re (c :: s2) [] (fun rest caps => some (rest, caps)) with
    | some (rest, caps) =>
      some (rev.reverse, (c :: s2).take ((c :: s2).length - rest.length), rest, caps)
    | none => reSearchAux re (c :: rev) s2

/-- Leftmost regex search over a string. -/
def reSearch (re : RE) (s : List Char) : Option (List Char × List Char × List Char × List (Nat × List Char)) :=
  reSearchAux re [] s

/-- Lookup of a capture group: the latest recorded value, `none` when the
group did not participate in the match (JavaScript `undefined`). -/
def capLookup (caps : List (Nat × List Char)) (i : Nat) : Option (List Char) :=
  (caps.find? (fun p => p.1 == i)).map Prod.snd

/-- JavaScript `s.replace(re, repl)` for a non-global regex: replace the
leftmost match (special `$` replacement patterns are not modelled; the
source's replacement texts are used literally). -/
def regexReplaceFirst (re : RE) (repl s : List Char) : List Char :=
  match reSearch re s with
  | some (pre, _, post, _) => pre ++ repl ++ post
  | none => s

/-- The schema tag regex from `replaceSchemaTags`:
`/{%-?\s*schema\s*('.*'|".*")\s*-?%}(([\s\S]*){%-?\s*endschema\s*-?%})?/`. -/
def schemaRE : RE :=
  reSeq
    [ .lit ("\x7b%".data), .opt (.lit ("-".data)), .starC .wsp, .lit ("schema".data), .starC .wsp
    , .grp 1 (.alt (reSeq [.lit [apos], .starC .anyNoNL, .lit [apos]])
                   (reSeq [.lit [quoteC], .starC .anyNoNL, .lit [quoteC]]))
    , .starC .wsp, .opt (.lit ("-".data)), .lit ("%\x7d".data)
    , .opt (.grp 2 (reSeq
        [ .grp 3 (.starC .anyChar)
        , .lit ("\x7b%".data), .opt (.lit ("-".data)), .starC .wsp, .lit ("endschema".data)
        , .starC .wsp, .opt (.lit ("-".data)), .lit ("%\x7d".data) ])) ]

/-- The opening duplicate tag `{%-?\s*duplicate\s*-?%}`. -/
def dupOpenRE : RE :=
  reSeq [ .lit ("\x7b%".data), .opt (.lit ("-".data)), .starC .wsp, .lit ("duplicate".data)
        , .starC .wsp, .opt (.lit ("-".data)), .lit ("%\x7d".data) ]

/-- The closing duplicate tag `{%-?\s*endduplicate\s*-?%}`. -/
def dupCloseRE : RE :=
  reSeq [ .lit ("\x7b%".data), .opt (.lit ("-".data)), .starC .wsp, .lit ("endduplicate".data)
        , .starC .wsp, .opt (.lit ("-".data)), .lit ("%\x7d".data) ]

/-- The duplicate block regex from `getDuplicateRules`:
`/{%-?\s*duplicate\s*-?%}(([\s\S]*)){%-?\s*endduplicate\s*-?%}/`. -/
def dupRulesRE : RE := reSeq [dupOpenRE, .grp 1 (.grp 2 (.starC .anyChar)), dupCloseRE]

/-- The duplicate block regex from `cleanDupicateTag`, which additionally
requires a blank line after the closing tag:
`/{%-?\s*duplicate\s*-?%}(([\s\S]*)){%-?\s*endduplicate\s*-?%}\n\n/`. -/
def cleanDupRE : RE :=
  reSeq [dupOpenRE, .grp 1 (.grp 2 (.starC .anyChar)), dupCloseRE, .lit ("\n\n".data)]

/-- Plugin options (`this.options`): `from.liquid`, `from.schema`, `to`. -/
structure Options where
  fromLiquid : List Char
  fromSchema : List Char
  toDir : List Char

/-- The pieces of the webpack compilation the plugin reads:
`compilation.options.context` and `compilation.compiler.outputPath`. -/
structure CompilationInfo where
  context : List Char
  outputPath : List Char

/-- The Node module system as the plugin sees it: `require.resolve` maps a
request to a resolved absolute file (or throws, modelled by `none`), and
`loadFresh` evaluates a resolved module from disk (or throws). -/
structure ModuleEnv where
  resolve : List Char → Option (List Char)
  loadFresh : List Char → Option JSValue

/-- A directory entry as observed via `fs.readdir` + `fs.stat`. -/
inductive Entry where
  | file (fileContents : List Char)
  | dir

/-- Lookup in `require.cache` (keyed by resolved path). -/
def cacheLookup (cache : List (List Char × JSValue)) (p : List Char) : Option JSValue :=
  (cache.find? (fun e => e.1 == p)).map Prod.snd

/-- Keys of `require.cache` (`Object.keys(require.cache)`). -/
def cacheKeys (cache : List (List Char × JSValue)) : List (List Char) :=
  cache.map Prod.fst

/-- Eviction `delete require.cache[p]`. -/
def cacheEvict (cache : List (List Char × JSValue)) (p : List Char) : List (List Char × JSValue) :=
  cache.filter (fun e => e.1 != p)

/-- Adding to a webpack dependency set (`fileDependencies.add`,
`contextDependencies.add`): sets are modelled as duplicate-free lists. -/
def depAdd (deps : List (List Char)) (d : List Char) : List (List Char) :=
  if deps.contains d then deps else deps ++ [d]

/-- Assignment `assets[key] = value` on the (string-keyed) asset map. -/
def assetSet (assets : List (List Char × List Char)) (k v : List Char) : List (List Char × List Char) :=
  if assets.any (fun e => e.1 == k) then assets.map (fun e => if e.1 == k then (k, v) else e)
  else assets ++ [(k, v)]

/-- Lookup on the asset map. -/
def assetGet (assets : List (List Char × List Char)) (k : List Char) : Option (List Char) :=
  (assets.find? (fun e => e.1 == k)).map Prod.snd

/-- Strip a leading and a trailing quote character, as
`importableFilePath.replace(/(^('|"))|(('|")$)/g, '')` does. -/
def isQuoteC (c : Char) : Bool := c = apos || c = quoteC

/-- Quote stripping for the schema path literal. -/
def stripQuotes (s : List Char) : List Char :=
  let s1 :=
    match s with
    | c :: rest => if isQuoteC c then rest else s
    | [] => []
  match s1.getLast? with
  | some c => if isQuoteC c then s1.dropLast else s1
  | none => s1

/-- The raw error thrown by `require.resolve` for a missing module, as it
prints via string interpolation (Node's message, modelled). -/
def rawResolveErr (p : List Char) : List Char :=
  "Error: Cannot find module ".data ++ apos :: (p ++ [apos])

/-- The thrown string of lines 161–166 of the source, for a module that
resolved but threw while loading. -/
def moduleLoadErr (matched ipath fileLocation : List Char) : List Char :=
  matched ++ "\n^\n      File to import not found or unreadable: ".data ++ ipath
    ++ "\n      in ".data ++ fileLocation

/-- The thrown string of lines 181–186 of the source, for an effective schema
whose `typeof` is not `object`. -/
def schemaTypeErr (schemaDisp rp : List Char) : List Char :=
  schemaDisp ++ "\n^\n      Schema expected to be of type ".data
    ++ quoteC :: ("object".data ++ quoteC :: ("\n      in ".data ++ rp))

/-- The message of the `SyntaxError` thrown by `JSON.parse` on invalid text
(modelled generically). -/
def jsonParseErr : List Char := "SyntaxError: Unexpected token in JSON".data

/-- The message of the `TypeError` thrown by `duplicateRules.forEach` when the
parsed rules are truthy but not an array (modelled generically). -/
def forEachErr : List Char := "TypeError: duplicateRules.forEach is not a function".data

/-- The inline contents passed to a generator: capture group 3 parsed by
`JSON.parse`, with any parse failure (including an absent group, i.e.
`JSON.parse(undefined)`) demoted to `null` by the try/catch of lines
169–173. -/
def inlineContents (caps : List (Nat × List Char)) : JSON :=
  match capLookup caps 3 with
  | none => .null
  | some body => (jsonParse body).getD .null

/-- The effective schema of lines 175–178: a loaded generator function is
invoked with the file base name and the inline contents; any other loaded
value is used directly. -/
def effectiveSchema (fileName : List Char) (importedSchema : JSValue) (contents : JSON) : JSValue :=
  match importedSchema with
  | .func f => f fileName contents
  | v => v

/-- Result of `replaceSchemaTags`: the produced content or the thrown error,
together with the updated file dependencies, the updated `require.cache`, and
the list of generator invocations (for stating that a generator is called
exactly once). -/
structure RSTOut where
  result : Except (List Char) (List Char)
  fileDeps : List (List Char)
  cache : List (List Char × JSValue)
  calls : List (List Char × JSON)

/-- Model of `replaceSchemaTags(fileLocation, compilation)` (lines 129–199).
The file read of line 131 is passed in as `fileContents`.  `require` is
modelled by a cache lookup followed by a fresh load on a miss (successful
loads populate the cache); `require.resolve` failure on line 154 throws
before the try/catch. -/
def replaceSchemaTags (opts : Options) (env : ModuleEnv) (fileLocation fileContents : List Char)
    (fileDeps : List (List Char)) (cache : List (List Char × JSValue)) : RSTOut :=
  let fileName := pathBasename fileLocation (".liquid".data)
  match reSearch schemaRE fileContents with
  | none => ⟨.ok fileContents, fileDeps, cache, []⟩
  | some (pre, matched, post, caps) =>
    let ipath := pathResolve opts.fromSchema (stripQuotes ((capLookup caps 1).getD []))
    match env.resolve ipath with
    | none => ⟨.error (rawResolveErr ipath), fileDeps, cache, []⟩
    | some rp =>
      let fileDeps2 := depAdd fileDeps rp
      let loaded : Option (JSValue × List (List Char × JSValue)) :=
        match cacheLookup cache rp with
        | some v => some (v, cache)
        | none =>
          match env.loadFresh rp with
          | some v => some (v, cache ++ [(rp, v)])
          | none => none
      match loaded with
      | none => ⟨.error (moduleLoadErr matched ipath fileLocation), fileDeps2, cache, []⟩
      | some (importedSchema, cache2) =>
        let contents := inlineContents caps
        let schema := effectiveSchema fileName importedSchema contents
        let calls : List (List Char × JSON) :=
          match importedSchema with
          | .func _ => [(fileName, contents)]
          | _ => []
        if jsTypeof schema = "object".data then
          ⟨.ok (pre ++ "\x7b% schema %\x7d\n".data ++ (jstrTop schema).getD ("undefined".data)
            ++ "\n\x7b% endschema %\x7d".data ++ post), fileDeps2, cache2, calls⟩
        else
          ⟨.error (schemaTypeErr (jsToDisplay schema) rp), fileDeps2, cache2, calls⟩

/-- Model of static `getDuplicateRules(fileContents)` (lines 234–243): the
parsed JSON of a non-empty duplicate block body, or the empty string; a JSON
parse failure throws. -/
def getDuplicateRules (fileContents : List Char) : Except (List Char) JSValue :=
  match reSearch dupRulesRE fileContents with
  | some (_, _, _, caps) =>
    let body := (capLookup caps 1).getD []
    if body = [] then .ok (.data (.str []))
    else
      match jsonParse body with
      | some v => .ok (.data v)
      | none => .error jsonParseErr
  | none => .ok (.data (.str []))

/-- Model of static `cleanDupicateTag(fileContents)` (lines 226–232): remove
the leftmost duplicate block that is followed by a blank line. -/
def cleanDupicateTag (fileContents : List Char) : List Char :=
  regexReplaceFirst cleanDupRE [] fileContents

/-- Model of `getOutputKeyByFileName` (lines 120–127). -/
def getOutputKeyByFileName (opts : Options) (fileName compilationOutput : List Char) : List Char :=
  pathJoin (pathRelative compilationOutput opts.toDir) fileName

/-- Model of `getOutputKey` (lines 111–118). -/
def getOutputKey (opts : Options) (liquidSourcePath compilationOutput : List Char) : List Char :=
  getOutputKeyByFileName opts (pathRelative opts.fromLiquid liquidSourcePath) compilationOutput

/-- Model of `duplicatedFiles(fileLocation, duplicateRules, fileContent,
assetList)` (lines 201–224): for an array of rules, write one asset per rule
name keyed by `${newFileName}.liquid`, with the first placeholder occurrence
replaced; falsy rules leave the asset list unchanged; truthy non-array rules
make `forEach` throw. -/
def duplicatedFiles (opts : Options) (fileLocation : List Char) (duplicateRules : JSValue)
    (fileContent : List Char) (assetList : List (List Char × List Char)) :
    Except (List Char) (List (List Char × List Char)) :=
  match duplicateRules with
  | .data (.arr names) =>
    .ok (names.foldl (fun assets nm =>
      assetSet assets (getOutputKeyByFileName opts (jsonDisplay nm ++ ".liquid".data) fileLocation)
        (strReplaceFirst ("-\x7b\x7btitle_section\x7d\x7d-".data) (jsonDisplay nm) fileContent)) assetList)
  | v => if jsTruthy v then .error forEachErr else .ok assetList

/-- The placeholder token replaced during duplication. -/
def titleToken : List Char := "-\x7b\x7btitle_section\x7d\x7d-".data

/-- The mutable compilation state the batch threads through:
`compilation.assets`, `compilation.errors`, the two dependency sets, and
`require.cache`. -/
structure CompState where
  assets : List (List Char × List Char)
  errors : List (List Char)
  fileDeps : List (List Char)
  contextDeps : List (List Char)
  cache : List (List Char × JSValue)

/-- The error pushed by the per-file catch (lines 92–96):
`new Error(`./${relativeFilePath}\n\n${error}`)`. -/
def wrapFileErr (relPath e : List Char) : List Char :=
  "./".data ++ relPath ++ "\n\n".data ++ e

/-- Model of the per-file body of `buildSchema` (lines 47–97): skip
directories and non-`.liquid` files; otherwise run `replaceSchemaTags`, then
either expand duplicates or store the single asset; any thrown error is
wrapped with the file's relative path and pushed onto the error list. -/
def processFile (opts : Options) (env : ModuleEnv) (comp : CompilationInfo)
    (st : CompState) (nameEntry : List Char × Entry) : CompState :=
  match nameEntry.2 with
  | .dir => st
  | .file fileContents =>
    if pathExtname nameEntry.1 = ".liquid".data then
      let fileLocation := pathResolve opts.fromLiquid nameEntry.1
      let relativeFilePath := pathRelative comp.context fileLocation
      let outputKey := getOutputKey opts fileLocation comp.outputPath
      let r := replaceSchemaTags opts env fileLocation fileContents st.fileDeps st.cache
      let st2 := { st with fileDeps := r.fileDeps, cache := r.cache }
      match r.result with
      | .error e => { st2 with errors := st2.errors ++ [wrapFileErr relativeFilePath e] }
      | .ok outputFile =>
        match getDuplicateRules outputFile with
        | .error e => { st2 with errors := st2.errors ++ [wrapFileErr relativeFilePath e] }
        | .ok duplicateRules =>
          if jsTruthy duplicateRules then
            match duplicatedFiles opts comp.outputPath duplicateRules (cleanDupicateTag outputFile) st2.assets with
            | .error e => { st2 with errors := st2.errors ++ [wrapFileErr relativeFilePath e] }
            | .ok assets2 => { st2 with assets := assets2 }
          else { st2 with assets := assetSet st2.assets outputKey outputFile }
    else st

/-- The start of `buildSchema` (lines 41–42): both configured directories
become context dependencies before any file is processed. -/
def buildSchemaInit (opts : Options) (st : CompState) : CompState :=
  { st with contextDeps := depAdd (depAdd st.contextDeps opts.fromLiquid) opts.fromSchema }

/-- The file fan-out of `buildSchema` (lines 46–98), modelled sequentially
(the source runs the independent per-file pipelines under `Promise.all`
with no ordering guarantee). -/
def buildSchemaMid (opts : Options) (env : ModuleEnv) (comp : CompilationInfo)
    (dirEntries : List (List Char × Entry)) (st : CompState) : CompState :=
  dirEntries.foldl (processFile opts env comp) (buildSchemaInit opts st)

/-- The body of the post-batch `forEach` (lines 103–107): a newly-resolved
module's directory becomes a context dependency, the module itself a file
dependency, and its cache entry is deleted. -/
def trackModule (s : CompState) (m : List Char) : CompState :=
  { s with
    contextDeps := depAdd s.contextDeps (pathDirname m)
    fileDeps := depAdd s.fileDeps m
    cache := cacheEvict s.cache m }

/-- Model of `buildSchema(compilation)` (lines 37–109): after the fan-out,
every module newly present in `require.cache` is added to the file
dependencies, its directory to the context dependencies, and is evicted from
the cache. -/
def buildSchema (opts : Options) (env : ModuleEnv) (comp : CompilationInfo)
    (dirEntries : List (List Char × Entry)) (st : CompState) : CompState :=
  let preTransformCache := cacheKeys st.cache
  let st2 := buildSchemaMid opts env comp dirEntries st
  let postTransformCache := cacheKeys st2.cache
  (postTransformCache.filter (fun m => !preTransformCache.contains m)).foldl trackModule st2

/-! Concrete fixtures used to evaluate the model on particular inputs. -/

/-- A sample configuration: templates in `/src/liquid`, schemas in
`/src/schema`, output under `/out/sections`. -/
def opts0 : Options := ⟨"/src/liquid".data, "/src/schema".data, "/out/sections".data⟩

/-- A sample compilation with context `/src` and output path `/out`. -/
def comp0 : CompilationInfo := ⟨"/src".data, "/out".data⟩

/-- The empty compilation state. -/
def stEmpty : CompState := ⟨[], [], [], [], []⟩

/-- A resolver that finds exactly the module `m` under the schema root. -/
def resolve0 : List Char → Option (List Char) :=
  fun p => if p = "/src/schema/m".data then some ("/src/schema/m.js".data) else none

/-- An environment whose only module exports the array `[1]`. -/
def envArr0 : ModuleEnv :=
  ⟨resolve0, fun p => if p = "/src/schema/m.js".data then some (.data (.arr [.num 1])) else none⟩

/-- An environment whose only module exports the number `5`. -/
def envNum0 : ModuleEnv :=
  ⟨resolve0, fun p => if p = "/src/schema/m.js".data then some (.data (.num 5)) else none⟩

/-- An environment in which no module resolves. -/
def envNone0 : ModuleEnv := ⟨fun _ => none, fun _ => none⟩

/-- An environment whose only module resolves but throws while loading. -/
def envThrow0 : ModuleEnv := ⟨resolve0, fun _ => none⟩

/-- A schema tag referencing module `m` with no inline body. -/
def schemaTag0 : List Char := "\x7b% schema 'm' %\x7d".data

/-- A file whose duplicate directive has an empty body. -/
def c6content0 : List Char := "A\x7b% duplicate %\x7d\x7b% endduplicate %\x7d\nB".data

/-- A generator function returning an object built from its two arguments. -/
def genF0 : List Char → JSON → JSValue :=
  fun n c => .data (.obj [(("name".data), .str n), (("inline".data), c)])

/-- An environment whose only module exports the generator `genF0`. -/
def envFun0 : ModuleEnv :=
  ⟨resolve0, fun p => if p = "/src/schema/m.js".data then some (.func genF0) else none⟩

/-- A schema tag with an inline body `[1]` and a closing tag. -/
def c8content0 : List Char := "\x7b% schema 'm' %\x7d [1] \x7b% endschema %\x7d".data

/-- A file with a placeholder and a duplicate directive naming two variants,
the closing tag followed by a blank line. -/
def c3content0 : List Char :=
  "A-\x7b\x7btitle_section\x7d\x7d-B\n\x7b% duplicate %\x7d[\"red\", \"blue\"]\x7b% endduplicate %\x7d\n\nC".data

/-- A file whose duplicate block is NOT followed by a blank line. -/
def c5content0 : List Char := "A\x7b% duplicate %\x7d[\"red\"]\x7b% endduplicate %\x7dB".data

/-- A file whose duplicate block IS followed by a blank line. -/
def c5blank0 : List Char := "A\x7b% duplicate %\x7d[\"red\"]\x7b% endduplicate %\x7d\n\nB".data

/-! Structural lemmas about the state operations. -/

/-- Adding an element to a dependency set makes it a member. -/
theorem mem_depAdd_self (deps : List (List Char)) (d : List Char) : d ∈ depAdd deps d := by
  unfold depAdd
  split
  · next h => exact List.elem_iff.mp h
  · exact List.mem_append_right _ (List.mem_singleton.mpr rfl)

/-- Adding to a dependency set preserves membership. -/
theorem mem_depAdd_of_mem (deps : List (List Char)) (d x : List Char) (hx : x ∈ deps) :
    x ∈ depAdd deps d := by
  unfold depAdd
  split
  · exact hx
  · exact List.mem_append_left _ hx

/-- The per-file pipeline never modifies the context dependencies (only the
batch prologue and the post-batch tracker do). -/
theorem processFile_contextDeps (opts : Options) (env : ModuleEnv) (comp : CompilationInfo)
    (st : CompState) (f : List Char × Entry) :
    (processFile opts env comp st f).contextDeps = st.contextDeps := by
  obtain ⟨name, entry⟩ := f
  cases entry with
  | dir => rfl
  | file fc =>
    simp only [processFile]
    split
    · split <;> (try split) <;> (try split) <;> (try split) <;> rfl
    · rfl

/-- The file fan-out never modifies the context dependencies. -/
theorem foldl_processFile_contextDeps (opts : Options) (env : ModuleEnv) (comp : CompilationInfo)
    (xs : List (List Char × Entry)) (st : CompState) :
    (xs.foldl (processFile opts env comp) st).contextDeps = st.contextDeps := by
  induction xs generalizing st with
  | nil => rfl
  | cons x xs ih => rw [List.foldl_cons, ih, processFile_contextDeps]

/-- `trackModule` preserves membership in both dependency sets. -/
theorem trackModule_mem_preserved (s : CompState) (m x : List Char) :
    (x ∈ s.contextDeps → x ∈ (trackModule s m).contextDeps) ∧
    (x ∈ s.fileDeps → x ∈ (trackModule s m).fileDeps) :=
  ⟨fun h => mem_depAdd_of_mem _ _ _ h, fun h => mem_depAdd_of_mem _ _ _ h⟩

/-- The post-batch tracking fold preserves membership in both dependency
sets. -/
theorem foldl_trackModule_mem_preserved (ms : List (List Char)) (s : CompState) (x : List Char) :
    (x ∈ s.contextDeps → x ∈ (ms.foldl trackModule s).contextDeps) ∧
    (x ∈ s.fileDeps → x ∈ (ms.foldl trackModule s).fileDeps) := by
  induction ms generalizing s with
  | nil => exact ⟨id, id⟩
  | cons m ms ih =>
    refine ⟨fun h => ?_, fun h => ?_⟩
    · exact (ih (trackModule s m)).1 ((trackModule_mem_preserved s m x).1 h)
    · exact (ih (trackModule s m)).2 ((trackModule_mem_preserved s m x).2 h)

/-- C10: the configured template source directory and schema root directory
are both added to the compilation's context dependencies at the start of
every batch — before any file is processed — and are still present in the
final state, for every directory listing (including an empty one) and every
module environment. -/
theorem c10_context_dependencies_added_upfront (opts : Options) (env : ModuleEnv)
    (comp : CompilationInfo) (dirEntries : List (List Char × Entry)) (st : CompState) :
    (opts.fromLiquid ∈ (buildSchemaInit opts st).contextDeps ∧
     opts.fromSchema ∈ (buildSchemaInit opts st).contextDeps) ∧
    opts.fromLiquid ∈ (buildSchema opts env comp dirEntries st).contextDeps ∧
    opts.fromSchema ∈ (buildSchema opts env comp dirEntries st).contextDeps := by
  have hinit : opts.fromLiquid ∈ (buildSchemaInit opts st).contextDeps ∧
      opts.fromSchema ∈ (buildSchemaInit opts st).contextDeps := by
    constructor
    · exact mem_depAdd_of_mem _ _ _ (mem_depAdd_self _ _)
    · exact mem_depAdd_self _ _
  refine ⟨hinit, ?_, ?_⟩ <;>
  · unfold buildSchema
    refine (foldl_trackModule_mem_preserved _ _ _).1 ?_
    unfold buildSchemaMid
    rw [foldl_processFile_contextDeps]
    first
    | exact hinit.1
    | exact hinit.2

/-- Every branch of the per-file pipeline either leaves the error list
unchanged or appends exactly one error wrapped with the file's
project-relative path. -/
theorem processFile_errors (opts : Options) (env : ModuleEnv) (comp : CompilationInfo)
    (st : CompState) (f : List Char × Entry) :
    ∃ tail, (processFile opts env comp st f).errors = st.errors ++ tail ∧
      (tail = [] ∨ ∃ e, tail = [wrapFileErr (pathRelative comp.context (pathResolve opts.fromLiquid f.1)) e]) := by
  obtain ⟨name, entry⟩ := f
  cases entry with
  | dir => exact ⟨[], by simp [processFile], Or.inl rfl⟩
  | file fc =>
    simp only [processFile]
    split
    · split
      · next e heq => exact ⟨_, rfl, Or.inr ⟨e, rfl⟩⟩
      · split
        · next e heq => exact ⟨_, rfl, Or.inr ⟨e, rfl⟩⟩
        · split
          · split
            · next e heq => exact ⟨_, rfl, Or.inr ⟨e, rfl⟩⟩
            · exact ⟨[], by simp, Or.inl rfl⟩
          · exact ⟨[], by simp, Or.inl rfl⟩
    · exact ⟨[], by simp, Or.inl rfl⟩

/-- C7: per-file isolation in the batch.  (1) Each file's processing either
appends no error or exactly one error wrapped with that file's relative
path; (2) processing a listing decomposes around any chosen file, so a file's
failure never aborts the processing of the files after it; (3) the batch
error list only ever grows, so no file's outcome erases another file's
error. -/
theorem c7_per_file_isolation (opts : Options) (env : ModuleEnv) (comp : CompilationInfo) :
    (∀ st f, ∃ tail, (processFile opts env comp st f).errors = st.errors ++ tail ∧
      (tail = [] ∨ ∃ e, tail = [wrapFileErr (pathRelative comp.context (pathResolve opts.fromLiquid f.1)) e])) ∧
    (∀ (xs : List (List Char × Entry)) f ys st,
      List.foldl (processFile opts env comp) st (xs ++ f :: ys) =
        List.foldl (processFile opts env comp)
          (processFile opts env comp (List.foldl (processFile opts env comp) st xs) f) ys) ∧
    (∀ (xs : List (List Char × Entry)) st,
      ∃ tail, (List.foldl (processFile opts env comp) st xs).errors = st.errors ++ tail) := by
  refine ⟨processFile_errors opts env comp, ?_, ?_⟩
  · intro xs f ys st
    rw [List.foldl_append, List.foldl_cons]
  · intro xs
    induction xs with
    | nil => exact fun st => ⟨[], by simp⟩
    | cons x xs ih =>
      intro st
      obtain ⟨t1, h1, _⟩ := processFile_errors opts env comp st x
      obtain ⟨t2, h2⟩ := ih (processFile opts env comp st x)
      exact ⟨t1 ++ t2, by rw [List.foldl_cons, h2, h1, List.append_assoc]⟩

/-- Deleting a cache entry removes it: a lookup of the deleted key misses. -/
theorem cacheLookup_evict_self (cache : List (List Char × JSValue)) (m : List Char) :
    cacheLookup (cacheEvict cache m) m = none := by
  induction cache with
  | nil => rfl
  | cons e rest ih =>
    simp only [cacheEvict, List.filter_cons] at *
    by_cases h : e.1 = m
    · simpa [h] using ih
    · have hb : (e.1 != m) = true := by simpa using h
      rw [hb]
      simp only [if_true]
      simpa [cacheLookup, List.find?_cons, show (e.1 == m) = false by simpa using h] using ih

/-- Deleting one cache entry cannot make another key hit. -/
theorem cacheLookup_none_evict (cache : List (List Char × JSValue)) (m x : List Char)
    (h : cacheLookup cache m = none) : cacheLookup (cacheEvict cache x) m = none := by
  induction cache with
  | nil => rfl
  | cons e rest ih =>
    simp only [cacheLookup, List.find?_cons, cacheEvict, List.filter_cons] at *
    by_cases he : (e.1 == m) = true
    · simp [he] at h
    · have hm : cacheLookup rest m = none := by
        simpa [cacheLookup, he] using h
      by_cases hx : (e.1 != x) = true
      · simpa [hx, cacheLookup, List.find?_cons, he] using ih hm
      · simpa [hx] using ih hm

/-- `trackModule` preserves a missing cache entry. -/
theorem trackModule_cache_none (s : CompState) (m x : List Char)
    (h : cacheLookup s.cache m = none) : cacheLookup (trackModule s x).cache m = none :=
  cacheLookup_none_evict s.cache m x h

/-- Once a module is tracked (file dependency present, directory context
dependency present, cache entry gone), further tracking steps keep it so. -/
theorem foldl_trackModule_keeps (ms : List (List Char)) (s : CompState) (m : List Char)
    (h1 : m ∈ s.fileDeps) (h2 : pathDirname m ∈ s.contextDeps)
    (h3 : cacheLookup s.cache m = none) :
    m ∈ (ms.foldl trackModule s).fileDeps ∧
    pathDirname m ∈ (ms.foldl trackModule s).contextDeps ∧
    cacheLookup (ms.foldl trackModule s).cache m = none := by
  induction ms generalizing s with
  | nil => exact ⟨h1, h2, h3⟩
  | cons x xs ih =>
    rw [List.foldl_cons]
    exact ih (trackModule s x)
      ((trackModule_mem_preserved _ _ _).2 h1)
      ((trackModule_mem_preserved _ _ _).1 h2)
      (trackModule_cache_none _ _ _ h3)

/-- After folding `trackModule` over a list of modules, every module in the
list is a file dependency, its directory is a context dependency, and its
cache entry is gone. -/
theorem foldl_trackModule_spec (ms : List (List Char)) (s : CompState) (m : List Char)
    (hm : m ∈ ms) :
    m ∈ (ms.foldl trackModule s).fileDeps ∧
    pathDirname m ∈ (ms.foldl trackModule s).contextDeps ∧
    cacheLookup (ms.foldl trackModule s).cache m = none := by
  induction ms generalizing s with
  | nil => cases hm
  | cons x xs ih =>
    rw [List.foldl_cons]
    rcases List.mem_cons.mp hm with heq | htail
    · subst heq
      exact foldl_trackModule_keeps xs (trackModule s m) m
        (mem_depAdd_self _ _) (mem_depAdd_self _ _) (cacheLookup_evict_self _ _)
    · exact ih (trackModule s x) htail

/-- C9: every module identity present in the cache after the file fan-out but
absent before the batch is (a) a file dependency of the final state, (b) has
its containing directory among the context dependencies, and (c) is evicted
from the module cache by the end of the batch, so a later `require` of it
misses the cache and re-reads the module from disk. -/
theorem c9_dependency_tracking (opts : Options) (env : ModuleEnv) (comp : CompilationInfo)
    (dirEntries : List (List Char × Entry)) (st : CompState) (m : List Char)
    (hpost : m ∈ cacheKeys (buildSchemaMid opts env comp dirEntries st).cache)
    (hpre : m ∉ cacheKeys st.cache) :
    m ∈ (buildSchema opts env comp dirEntries st).fileDeps ∧
    pathDirname m ∈ (buildSchema opts env comp dirEntries st).contextDeps ∧
    cacheLookup (buildSchema opts env comp dirEntries st).cache m = none := by
  unfold buildSchema
  refine foldl_trackModule_spec _ _ _ ?_
  refine List.mem_filter.mpr ⟨hpost, ?_⟩
  simpa using fun hc => hpre (List.elem_iff.mp hc)

/-- Evaluation of `replaceSchemaTags` when the schema tag matches, the module
resolves, and the module loads (from the cache or freshly): the effective
schema is the loaded value, a generator being invoked once on the file base
name and inline contents; the tag block is rewritten when the effective
schema has `typeof` `object` and the `SchemaTypeError` string is thrown
otherwise. -/
theorem replaceSchemaTags_eval (opts : Options) (env : ModuleEnv)
    (fileLocation fc : List Char) (fileDeps : List (List Char))
    (cache : List (List Char × JSValue)) (pre m post : List Char)
    (caps : List (Nat × List Char)) (rp : List Char) (v : JSValue)
    (cache2 : List (List Char × JSValue))
    (hmatch : reSearch schemaRE fc = some (pre, m, post, caps))
    (hres : env.resolve (pathResolve opts.fromSchema (stripQuotes ((capLookup caps 1).getD []))) = some rp)
    (hload : (cacheLookup cache rp = some v ∧ cache2 = cache) ∨
      (cacheLookup cache rp = none ∧ env.loadFresh rp = some v ∧ cache2 = cache ++ [(rp, v)])) :
    replaceSchemaTags opts env fileLocation fc fileDeps cache =
      { result :=
          if jsTypeof (effectiveSchema (pathBasename fileLocation (".liquid".data)) v (inlineContents caps)) = "object".data then
            .ok (pre ++ "\x7b% schema %\x7d\n".data
              ++ (jstrTop (effectiveSchema (pathBasename fileLocation (".liquid".data)) v (inlineContents caps))).getD ("undefined".data)
              ++ "\n\x7b% endschema %\x7d".data ++ post)
          else
            .error (schemaTypeErr (jsToDisplay (effectiveSchema (pathBasename fileLocation (".liquid".data)) v (inlineContents caps))) rp),
        fileDeps := depAdd fileDeps rp,
        cache := cache2,
        calls :=
          match v with
          | .func _ => [(pathBasename fileLocation (".liquid".data), inlineContents caps)]
          | _ => [] } := by
  unfold replaceSchemaTags
  rw [hmatch]
  simp only [hres]
  rcases hload with ⟨h1, h2⟩ | ⟨h1, h2, h3⟩
  · subst h2
    simp only [h1]
    cases v <;> simp [effectiveSchema] <;> (try (split <;> simp_all))
  · subst h3
    simp only [h1, h2]
    cases v <;> simp [effectiveSchema] <;> (try (split <;> simp_all))

/-- Evaluation of `replaceSchemaTags` when the schema tag matches but
`require.resolve` fails: the raw resolver error is thrown from line 154,
before the try/catch that produces the formatted message, and no dependency
is recorded. -/
theorem replaceSchemaTags_resolve_failure (opts : Options) (env : ModuleEnv)
    (fileLocation fc : List Char) (fileDeps : List (List Char))
    (cache : List (List Char × JSValue)) (pre m post : List Char)
    (caps : List (Nat × List Char))
    (hmatch : reSearch schemaRE fc = some (pre, m, post, caps))
    (hres : env.resolve (pathResolve opts.fromSchema (stripQuotes ((capLookup caps 1).getD []))) = none) :
    replaceSchemaTags opts env fileLocation fc fileDeps cache =
      { result := .error (rawResolveErr (pathResolve opts.fromSchema (stripQuotes ((capLookup caps 1).getD [])))),
        fileDeps := fileDeps, cache := cache, calls := [] } := by
  unfold replaceSchemaTags
  rw [hmatch]
  simp only [hres]

/-- C1 (counterexample): a schema module that loads to an array — a value the
claim says must fail as "not a mapping" — passes the `typeof` check of line
180 (`typeof [] === 'object'` in JavaScript), so the file produces zero
errors and one output asset containing the serialised array. -/
theorem c1_counterexample :
    (processFile opts0 envArr0 comp0 stEmpty (("a.liquid".data), .file schemaTag0)).errors = [] ∧
    (processFile opts0 envArr0 comp0 stEmpty (("a.liquid".data), .file schemaTag0)).assets =
      [(("sections/a.liquid".data), ("\x7b% schema %\x7d\n[\n    1\n]\n\x7b% endschema %\x7d".data))] :=
  ⟨rfl, rfl⟩

/-- C1 (amended): for every processed `.liquid` file whose schema directive
resolves to an effective schema whose JavaScript `typeof` is not `object`
(numbers, strings, booleans, functions, `undefined` — but not arrays or
`null`, which `typeof` classifies as `object`), the file contributes exactly
one batch error, formed from the `SchemaTypeError` string naming the resolved
module path wrapped with the file's relative path, and no output asset, while
the asset map is left untouched. -/
theorem c1_schema_type_error (opts : Options) (env : ModuleEnv) (comp : CompilationInfo)
    (st : CompState) (name fc : List Char) (pre m post : List Char)
    (caps : List (Nat × List Char)) (rp : List Char) (v : JSValue)
    (cache2 : List (List Char × JSValue))
    (hext : pathExtname name = ".liquid".data)
    (hmatch : reSearch schemaRE fc = some (pre, m, post, caps))
    (hres : env.resolve (pathResolve opts.fromSchema (stripQuotes ((capLookup caps 1).getD []))) = some rp)
    (hload : (cacheLookup st.cache rp = some v ∧ cache2 = st.cache) ∨
      (cacheLookup st.cache rp = none ∧ env.loadFresh rp = some v ∧ cache2 = st.cache ++ [(rp, v)]))
    (htype : jsTypeof (effectiveSchema (pathBasename (pathResolve opts.fromLiquid name) (".liquid".data)) v (inlineContents caps)) ≠ "object".data) :
    (processFile opts env comp st (name, .file fc)).errors =
      st.errors ++ [wrapFileErr (pathRelative comp.context (pathResolve opts.fromLiquid name))
        (schemaTypeErr (jsToDisplay (effectiveSchema (pathBasename (pathResolve opts.fromLiquid name) (".liquid".data)) v (inlineContents caps))) rp)] ∧
    (processFile opts env comp st (name, .file fc)).assets = st.assets := by
  have heval := replaceSchemaTags_eval opts env (pathResolve opts.fromLiquid name) fc
    st.fileDeps st.cache pre m post caps rp v cache2 hmatch hres hload
  constructor <;>
  · simp only [processFile, hext, heval, if_neg htype, eq_self_iff_true, if_true]

/-- C1 (witness): the number-valued module fixture instantiates the amended
theorem. -/
theorem c1_witness :
    pathExtname ("a.liquid".data) = ".liquid".data ∧
    reSearch schemaRE schemaTag0 = some ([], schemaTag0, [], [(1, [apos, 'm', apos])]) ∧
    (processFile opts0 envNum0 comp0 stEmpty (("a.liquid".data), .file schemaTag0)).errors =
      stEmpty.errors ++ [wrapFileErr (pathRelative comp0.context (pathResolve opts0.fromLiquid ("a.liquid".data)))
        (schemaTypeErr (jsToDisplay (effectiveSchema (pathBasename (pathResolve opts0.fromLiquid ("a.liquid".data)) (".liquid".data)) (.data (.num 5)) (inlineContents [(1, [apos, 'm', apos])]))) ("/src/schema/m.js".data))] ∧
    (processFile opts0 envNum0 comp0 stEmpty (("a.liquid".data), .file schemaTag0)).assets = stEmpty.assets := by
  refine ⟨rfl, rfl, ?_, ?_⟩ <;>
  · have h := c1_schema_type_error opts0 envNum0 comp0 stEmpty ("a.liquid".data) schemaTag0
      [] schemaTag0 [] [(1, [apos, 'm', apos])] ("/src/schema/m.js".data) (.data (.num 5))
      [(("/src/schema/m.js".data), .data (.num 5))]
      rfl rfl rfl (Or.inr ⟨rfl, rfl, rfl⟩) (by decide)
    first
    | exact h.1
    | exact h.2

/-- C2: for a module that fails to resolve (not found), the error thrown is
the raw resolver error of line 154 — it carries neither the directive text,
nor a caret marker, nor the originating file path — because
`require.resolve` runs before the try/catch whose message ("File to import
not found or unreadable") was written to cover exactly this case; the
formatted `ModuleLoadError` only appears for a module that resolves but
throws while loading. -/
theorem c2_not_found_bypasses_formatted_error :
    (replaceSchemaTags opts0 envNone0 ("/src/liquid/a.liquid".data) schemaTag0 [] []).result
      = .error (rawResolveErr ("/src/schema/m".data)) ∧
    containsSub ("^".data) (rawResolveErr ("/src/schema/m".data)) = false ∧
    containsSub ("/src/liquid/a.liquid".data) (rawResolveErr ("/src/schema/m".data)) = false ∧
    containsSub schemaTag0 (rawResolveErr ("/src/schema/m".data)) = false ∧
    (replaceSchemaTags opts0 envThrow0 ("/src/liquid/a.liquid".data) schemaTag0 [] []).result
      = .error (moduleLoadErr schemaTag0 ("/src/schema/m".data) ("/src/liquid/a.liquid".data)) ∧
    containsSub ("^".data) (moduleLoadErr schemaTag0 ("/src/schema/m".data) ("/src/liquid/a.liquid".data)) = true ∧
    containsSub schemaTag0 (moduleLoadErr schemaTag0 ("/src/schema/m".data) ("/src/liquid/a.liquid".data)) = true :=
  ⟨rfl, rfl, rfl, rfl, rfl, rfl, rfl⟩

/-- C6 (counterexample): a file whose duplicate directive body is empty emits
a single naturally-keyed asset, but — contrary to the claim — the duplicate
directive text is NOT removed from that asset: the emitted content is the
input unchanged, directive included, because the falsy rules value makes the
caller skip `cleanDupicateTag` entirely. -/
theorem c6_counterexample :
    (processFile opts0 envNone0 comp0 stEmpty (("a.liquid".data), .file c6content0)).assets =
      [(("sections/a.liquid".data), c6content0)] ∧
    (processFile opts0 envNone0 comp0 stEmpty (("a.liquid".data), .file c6content0)).errors = [] ∧
    containsSub ("\x7b% duplicate %\x7d".data) c6content0 = true :=
  ⟨rfl, rfl, rfl⟩

/-- C6 (amended): a duplicate directive with an empty body behaves like the
absent directive with respect to keying — exactly one asset is stored under
the file's natural output key, with no error — but its content is the
resolved file content unchanged: the directive text is left in place. -/
theorem c6_empty_body_keeps_directive (opts : Options) (env : ModuleEnv)
    (comp : CompilationInfo) (st : CompState) (name fc outputFile : List Char)
    (hext : pathExtname name = ".liquid".data)
    (hok : (replaceSchemaTags opts env (pathResolve opts.fromLiquid name) fc st.fileDeps st.cache).result = .ok outputFile)
    (hrules : getDuplicateRules outputFile = .ok (.data (.str []))) :
    (processFile opts env comp st (name, .file fc)).assets =
      assetSet st.assets (getOutputKey opts (pathResolve opts.fromLiquid name) comp.outputPath) outputFile ∧
    (processFile opts env comp st (name, .file fc)).errors = st.errors := by
  constructor <;>
  · simp only [processFile, hext, hok, hrules, jsTruthy, jsonTruthy]
    simp

/-- C6 (witness): the empty-body fixture instantiates the amended theorem. -/
theorem c6_witness :
    (replaceSchemaTags opts0 envNone0 (pathResolve opts0.fromLiquid ("a.liquid".data)) c6content0 stEmpty.fileDeps stEmpty.cache).result = .ok c6content0 ∧
    getDuplicateRules c6content0 = .ok (.data (.str [])) ∧
    (processFile opts0 envNone0 comp0 stEmpty (("a.liquid".data), .file c6content0)).assets =
      assetSet stEmpty.assets (getOutputKey opts0 (pathResolve opts0.fromLiquid ("a.liquid".data)) comp0.outputPath) c6content0 :=
  ⟨rfl, rfl, (c6_empty_body_keeps_directive opts0 envNone0 comp0 stEmpty ("a.liquid".data)
    c6content0 c6content0 rfl rfl rfl).1⟩

/-- C8: when the schema directive's module loads to a generator function, the
function is invoked exactly once, with the file's base name (without the
`.liquid` extension) and the inline body parsed as JSON — `null` when the
inline body is absent or unparsable, the parse failure never failing the
resolution — and its return value is used verbatim as the effective schema:
serialised into the rewritten tag block when its `typeof` is `object`, and
displayed in the thrown `SchemaTypeError` otherwise. -/
theorem c8_generator_invoked_once (opts : Options) (env : ModuleEnv)
    (fileLocation fc : List Char) (fileDeps : List (List Char))
    (cache : List (List Char × JSValue)) (pre m post : List Char)
    (caps : List (Nat × List Char)) (rp : List Char)
    (f : List Char → JSON → JSValue) (cache2 : List (List Char × JSValue))
    (hmatch : reSearch schemaRE fc = some (pre, m, post, caps))
    (hres : env.resolve (pathResolve opts.fromSchema (stripQuotes ((capLookup caps 1).getD []))) = some rp)
    (hload : (cacheLookup cache rp = some (.func f) ∧ cache2 = cache) ∨
      (cacheLookup cache rp = none ∧ env.loadFresh rp = some (.func f) ∧ cache2 = cache ++ [(rp, .func f)])) :
    (replaceSchemaTags opts env fileLocation fc fileDeps cache).calls =
      [(pathBasename fileLocation (".liquid".data), inlineContents caps)] ∧
    (jsTypeof (f (pathBasename fileLocation (".liquid".data)) (inlineContents caps)) = "object".data →
      (replaceSchemaTags opts env fileLocation fc fileDeps cache).result =
        .ok (pre ++ "\x7b% schema %\x7d\n".data
          ++ (jstrTop (f (pathBasename fileLocation (".liquid".data)) (inlineContents caps))).getD ("undefined".data)
          ++ "\n\x7b% endschema %\x7d".data ++ post)) ∧
    (jsTypeof (f (pathBasename fileLocation (".liquid".data)) (inlineContents caps)) ≠ "object".data →
      (replaceSchemaTags opts env fileLocation fc fileDeps cache).result =
        .error (schemaTypeErr (jsToDisplay (f (pathBasename fileLocation (".liquid".data)) (inlineContents caps))) rp)) := by
  have heval := replaceSchemaTags_eval opts env fileLocation fc fileDeps cache pre m post caps
    rp (.func f) cache2 hmatch hres hload
  refine ⟨?_, ?_, ?_⟩
  · simp only [heval]
  · intro h
    simp only [heval, effectiveSchema, if_pos h]
  · intro h
    simp only [heval, effectiveSchema, if_neg h]

/-- C8 (witness): the generator fixture instantiates the theorem — the call
log contains exactly one invocation with the base name `a` and the parsed
inline body. -/
theorem c8_witness :
    (replaceSchemaTags opts0 envFun0 ("/src/liquid/a.liquid".data) c8content0 [] []).calls =
      [(pathBasename ("/src/liquid/a.liquid".data) (".liquid".data),
        inlineContents [(2, (" [1] \x7b% endschema %\x7d".data)), (3, (" [1] ".data)), (1, [apos, 'm', apos])])] :=
  (c8_generator_invoked_once opts0 envFun0 ("/src/liquid/a.liquid".data) c8content0 [] []
    [] c8content0 [] [(2, (" [1] \x7b% endschema %\x7d".data)), (3, (" [1] ".data)), (1, [apos, 'm', apos])]
    ("/src/schema/m.js".data) genF0 [(("/src/schema/m.js".data), .func genF0)]
    rfl rfl (Or.inr ⟨rfl, rfl, rfl⟩)).1

/-- Reading from a consed asset map: hit the head or recurse. -/
theorem assetGet_cons (z : List Char × List Char) (zs : List (List Char × List Char))
    (k2 : List Char) :
    assetGet (z :: zs) k2 = if (z.1 == k2) = true then some z.2 else assetGet zs k2 := by
  by_cases hz : (z.1 == k2) = true
  · simp [assetGet, List.find?_cons, hz]
  · simp [assetGet, List.find?_cons, hz]

/-- Setting a key whose head entry does not match walks past the head. -/
theorem assetSet_cons_ne (e : List Char × List Char) (rest : List (List Char × List Char))
    (k v : List Char) (h : (e.1 == k) = false) :
    assetSet (e :: rest) k v = e :: assetSet rest k v := by
  have h2 : ¬ e.1 = k := by simpa using h
  by_cases hr : rest.any (fun x => x.1 == k) = true
  · simp [assetSet, List.any_cons, h, hr, h2]
  · simp [assetSet, List.any_cons, h, hr]

/-- Reading back the key just written returns the written value. -/
theorem assetGet_assetSet_self (a : List (List Char × List Char)) (k v : List Char) :
    assetGet (assetSet a k v) k = some v := by
  induction a with
  | nil => simp [assetSet, assetGet]
  | cons e rest ih =>
    by_cases h : (e.1 == k) = true
    · have hany : (e :: rest).any (fun x => x.1 == k) = true := by simp [List.any_cons, h]
      rw [show assetSet (e :: rest) k v = (e :: rest).map (fun x => if x.1 == k then (k, v) else x) by
        simp [assetSet, hany]]
      rw [List.map_cons, if_pos h, assetGet_cons]
      simp
    · rw [assetSet_cons_ne e rest k v (by simpa using h), assetGet_cons, if_neg (by simpa using h), ih]

/-- Writing one key leaves every other key's value unchanged. -/
theorem assetGet_assetSet_other (a : List (List Char × List Char)) (k v k2 : List Char)
    (h : k2 ≠ k) : assetGet (assetSet a k v) k2 = assetGet a k2 := by
  have hkk : (k == k2) = false := by simpa using fun he => h he.symm
  induction a with
  | nil => simp [assetSet, assetGet, hkk]
  | cons e rest ih =>
    by_cases he : (e.1 == k) = true
    · have hany : (e :: rest).any (fun x => x.1 == k) = true := by simp [List.any_cons, he]
      rw [show assetSet (e :: rest) k v = (e :: rest).map (fun x => if x.1 == k then (k, v) else x) by
        simp [assetSet, hany]]
      have hmapeq : ∀ b : List (List Char × List Char),
          assetGet (b.map (fun x => if x.1 == k then (k, v) else x)) k2 = assetGet b k2 := by
        intro b
        induction b with
        | nil => rfl
        | cons y ys ihy =>
          rw [List.map_cons]
          by_cases hy : (y.1 == k) = true
          · have hy2 : y.1 = k := by simpa using hy
            rw [if_pos hy, assetGet_cons, assetGet_cons]
            have : (y.1 == k2) = false := by simp [hy2]; simpa using fun he2 => h he2.symm
            simp only [hkk, this]
            simp only [Bool.false_eq_true, if_false]
            simpa using ihy
          · rw [if_neg (by simpa using hy), assetGet_cons, assetGet_cons, ihy]
      exact hmapeq (e :: rest)
    · rw [assetSet_cons_ne e rest k v (by simpa using he), assetGet_cons, assetGet_cons, ih]

/-- Folding key-value writes over a list does not touch keys outside the
written key set. -/
theorem foldl_assetSet_get_notmem {α : Type} (K V : α → List Char) (l : List α)
    (a : List (List Char × List Char)) (k : List Char)
    (hk : ∀ y ∈ l, K y ≠ k) :
    assetGet (l.foldl (fun acc y => assetSet acc (K y) (V y)) a) k = assetGet a k := by
  induction l generalizing a with
  | nil => rfl
  | cons x xs ih =>
    rw [List.foldl_cons, ih _ (fun y hy => hk y (List.mem_cons_of_mem _ hy))]
    exact assetGet_assetSet_other _ _ _ _ (fun he => hk x (List.mem_cons_self _ _) he.symm)

/-- Folding key-value writes over a list with pairwise-distinct keys stores,
for every list element, exactly its value under its key. -/
theorem foldl_assetSet_get_mem {α : Type} (K V : α → List Char) (l : List α)
    (a : List (List Char × List Char)) (x : α) (hx : x ∈ l)
    (hnd : (l.map K).Nodup) :
    assetGet (l.foldl (fun acc y => assetSet acc (K y) (V y)) a) (K x) = some (V x) := by
  induction l generalizing a with
  | nil => cases hx
  | cons y ys ih =>
    rw [List.foldl_cons]
    rcases List.mem_cons.mp hx with heq | hmem
    · subst heq
      have hni : K x ∉ ys.map K := by simpa using (List.nodup_cons.mp hnd).1
      rw [foldl_assetSet_get_notmem K V ys _ _
        (fun z hz he => hni (by rw [← he]; exact List.mem_map_of_mem K hz))]
      exact assetGet_assetSet_self _ _ _
    · exact ih _ hmem ((List.nodup_cons.mp hnd).2)

/-- Display of a JSON string is the string itself. -/
theorem jsonDisplay_str (s : List Char) : jsonDisplay (.str s) = s := rfl

/-- C3: when a file's duplicate directive body parses to a non-empty JSON
array of (pairwise key-distinct) target names, the batch asset map receives
exactly one asset per target name, keyed by the output-key mapping with the
filename replaced by `${targetName}.liquid` and holding the
placeholder-substituted cleaned content; any key outside the variant key set
— in particular the file's natural output key when it does not collide with
a variant key — keeps its previous value, so the naturally-keyed single
asset is not added; and the file contributes no error. -/
theorem c3_duplicate_variants (opts : Options) (env : ModuleEnv) (comp : CompilationInfo)
    (st : CompState) (name fc outputFile : List Char) (names : List (List Char))
    (hext : pathExtname name = ".liquid".data)
    (hok : (replaceSchemaTags opts env (pathResolve opts.fromLiquid name) fc st.fileDeps st.cache).result = .ok outputFile)
    (hrules : getDuplicateRules outputFile = .ok (.data (.arr (names.map JSON.str))))
    (hne : names ≠ [])
    (hkeys : (names.map (fun nm => getOutputKeyByFileName opts (nm ++ ".liquid".data) comp.outputPath)).Nodup) :
    (∀ nm ∈ names,
      assetGet (processFile opts env comp st (name, .file fc)).assets
          (getOutputKeyByFileName opts (nm ++ ".liquid".data) comp.outputPath)
        = some (strReplaceFirst titleToken nm (cleanDupicateTag outputFile))) ∧
    (∀ k : List Char, (∀ nm ∈ names, getOutputKeyByFileName opts (nm ++ ".liquid".data) comp.outputPath ≠ k) →
      assetGet (processFile opts env comp st (name, .file fc)).assets k = assetGet st.assets k) ∧
    (processFile opts env comp st (name, .file fc)).errors = st.errors := by
  have hbody : (processFile opts env comp st (name, .file fc)).assets =
      names.foldl (fun acc nm => assetSet acc
        (getOutputKeyByFileName opts (nm ++ ".liquid".data) comp.outputPath)
        (strReplaceFirst titleToken nm (cleanDupicateTag outputFile))) st.assets ∧
      (processFile opts env comp st (name, .file fc)).errors = st.errors := by
    constructor <;>
    · simp only [processFile, hext, hok, hrules, eq_self_iff_true, if_true, jsTruthy, jsonTruthy,
        duplicatedFiles, titleToken, List.foldl_map, jsonDisplay_str]
  refine ⟨?_, ?_, hbody.2⟩
  · intro nm hnm
    rw [hbody.1]
    exact foldl_assetSet_get_mem _ _ names st.assets nm hnm hkeys
  · intro k hk
    rw [hbody.1]
    exact foldl_assetSet_get_notmem _ _ names st.assets k hk

/-- C3 (witness): the two-variant fixture instantiates the theorem — the
`red` variant is stored under its variant key with the substituted, cleaned
content. -/
theorem c3_witness :
    pathExtname ("a.liquid".data) = ".liquid".data ∧
    getDuplicateRules c3content0 = .ok (.data (.arr ([("red".data), ("blue".data)].map JSON.str))) ∧
    assetGet (processFile opts0 envNone0 comp0 stEmpty (("a.liquid".data), .file c3content0)).assets
        (getOutputKeyByFileName opts0 (("red".data) ++ ".liquid".data) comp0.outputPath)
      = some (strReplaceFirst titleToken ("red".data) (cleanDupicateTag c3content0)) :=
  ⟨rfl, rfl,
    (c3_duplicate_variants opts0 envNone0 comp0 stEmpty ("a.liquid".data) c3content0 c3content0
      [("red".data), ("blue".data)] rfl rfl rfl (by decide) (by decide)).1 ("red".data) (by decide)⟩

/-- Dropping a prefix succeeds exactly on an exact decomposition. -/
theorem dropPref_eq_some (p : List Char) : ∀ (s r : List Char), dropPref p s = some r ↔ s = p ++ r := by
  induction p with
  | nil => intro s r; simp [dropPref]
  | cons x xs ih =>
    intro s r
    cases s with
    | nil => simp [dropPref]
    | cons c cs =>
      by_cases h : x = c
      · subst h
        simp [dropPref, ih]
      · simp only [dropPref, if_neg h, List.cons_append]
        simp only [List.cons.injEq]
        constructor
        · intro hcon; exact Option.noConfusion hcon
        · intro hcon; exact absurd hcon.1.symm h

/-- A prefix of `a` is a prefix of `a ++ b`. -/
theorem startsWith_append_of (tok a b : List Char) (h : startsWith tok a = true) :
    startsWith tok (a ++ b) = true := by
  unfold startsWith at *
  obtain ⟨r, hr⟩ := Option.isSome_iff_exists.mp h
  have h1 := (dropPref_eq_some tok a r).mp hr
  have h2 : dropPref tok (a ++ b) = some (r ++ b) :=
    (dropPref_eq_some tok (a ++ b) (r ++ b)).mpr (by rw [h1, List.append_assoc])
  simp [h2]

/-- Characterisation of JavaScript string `replace` with a string pattern:
when the token occurs, the result splits the input at the FIRST occurrence
(nothing before it contains the token) and substitutes only there. -/
theorem strReplaceFirst_spec (tok repl : List Char) (htok : tok ≠ []) :
    ∀ s : List Char, containsSub tok s = true →
      ∃ pre suf, s = pre ++ tok ++ suf ∧ containsSub tok pre = false ∧
        strReplaceFirst tok repl s = pre ++ repl ++ suf := by
  intro s
  induction s with
  | nil =>
    intro h
    exfalso
    cases tok with
    | nil => exact htok rfl
    | cons t ts => simp [containsSub, startsWith, dropPref] at h
  | cons c cs ih =>
    intro h
    cases hd : dropPref tok (c :: cs) with
    | some rest =>
      refine ⟨[], rest, ?_, ?_, ?_⟩
      · simpa using (dropPref_eq_some tok (c :: cs) rest).mp hd
      · cases tok with
        | nil => exact absurd rfl htok
        | cons t ts => simp [containsSub, startsWith, dropPref]
      · simp [strReplaceFirst, hd]
    | none =>
      have hcs : containsSub tok cs = true := by
        have h2 := h
        simp only [containsSub, startsWith, hd, Option.isSome_none, Bool.false_or] at h2
        exact h2
      obtain ⟨pre, suf, h1, h2, h3⟩ := ih hcs
      refine ⟨c :: pre, suf, by simp [h1], ?_, ?_⟩
      · have hsw : startsWith tok (c :: pre) = false := by
          by_contra hx
          have hx2 : startsWith tok (c :: pre) = true := by simpa using hx
          have h4 := startsWith_append_of tok (c :: pre) (tok ++ suf) hx2
          have heq : (c :: pre) ++ (tok ++ suf) = c :: cs := by
            simp [h1, List.append_assoc]
          rw [heq] at h4
          unfold startsWith at h4
          rw [hd] at h4
          simp at h4
        simp [containsSub, hsw, h2]
      · simp [strReplaceFirst, hd, h3]

/-- C4 (counterexample): when the template body contains the placeholder
token twice, the variant content produced by `duplicatedFiles` keeps the
second occurrence intact — `String.prototype.replace` with a string pattern
replaces only the first occurrence — so the variant still contains the
literal token. -/
theorem c4_counterexample :
    duplicatedFiles opts0 comp0.outputPath (.data (.arr [.str ("red".data)]))
        (titleToken ++ 'X' :: titleToken) []
      = .ok [(("sections/red.liquid".data), ("red".data ++ 'X' :: titleToken))] ∧
    containsSub titleToken ("red".data ++ 'X' :: titleToken) = true :=
  ⟨rfl, rfl⟩

/-- C4 (amended): for every variant produced for a target name, the variant
content equals the template body with exactly the FIRST occurrence of the
placeholder token replaced by the target name: the body splits as
`pre ++ token ++ suf` with no occurrence inside `pre`, and the variant is
`pre ++ name ++ suf`; later occurrences are left verbatim. -/
theorem c4_first_occurrence_only (opts : Options) (outp nm fileContent : List Char)
    (assetList : List (List Char × List Char))
    (h : containsSub titleToken fileContent = true) :
    ∃ pre suf, fileContent = pre ++ titleToken ++ suf ∧ containsSub titleToken pre = false ∧
      duplicatedFiles opts outp (.data (.arr [.str nm])) fileContent assetList
        = .ok (assetSet assetList (getOutputKeyByFileName opts (nm ++ ".liquid".data) outp)
            (pre ++ nm ++ suf)) := by
  obtain ⟨pre, suf, h1, h2, h3⟩ := strReplaceFirst_spec titleToken nm (by decide) fileContent h
  refine ⟨pre, suf, h1, h2, ?_⟩
  rw [← h3]
  simp [duplicatedFiles, jsonDisplay_str, titleToken]

/-- C4 (witness): a body with one occurrence instantiates the amended
theorem. -/
theorem c4_witness :
    containsSub titleToken ("A".data ++ titleToken ++ "B".data) = true ∧
    (∃ pre suf, ("A".data ++ titleToken ++ "B".data) = pre ++ titleToken ++ suf ∧
      containsSub titleToken pre = false ∧
      duplicatedFiles opts0 comp0.outputPath (.data (.arr [.str ("red".data)]))
          ("A".data ++ titleToken ++ "B".data) []
        = .ok (assetSet [] (getOutputKeyByFileName opts0 (("red".data) ++ ".liquid".data) comp0.outputPath)
            (pre ++ "red".data ++ suf))) :=
  ⟨by decide, c4_first_occurrence_only opts0 comp0.outputPath ("red".data)
    ("A".data ++ titleToken ++ "B".data) [] (by decide)⟩

/-- Greedy backtracking tries successive lengths: a success comes from the
continuation at some count within the bound. -/
theorem tryFrom_spec {α : Type} (k : Nat → Option α) (n : Nat) (r : α)
    (h : tryFrom k n = some r) : ∃ i, i ≤ n ∧ k i = some r := by
  induction n with
  | zero => exact ⟨0, le_rfl, h⟩
  | succ n ih =>
    simp only [tryFrom] at h
    cases hk : k (n + 1) with
    | some r2 =>
      rw [hk] at h
      exact ⟨n + 1, le_rfl, by rw [hk]; exact h⟩
    | none =>
      rw [hk] at h
      obtain ⟨i, hi, hki⟩ := ih h
      exact ⟨i, Nat.le_succ_of_le hi, hki⟩

/-- A successful regex match hands the continuation a suffix of the input:
whatever the matcher consumed is an initial segment. -/
theorem reMatch_suffix {α : Type} :
    ∀ (re : RE) (s : List Char) (caps : List (Nat × List Char))
      (k : List Char → List (Nat × List Char) → Option α) (r : α),
      reMatch re s caps k = some r →
      ∃ n caps2, n ≤ s.length ∧ k (s.drop n) caps2 = some r := by
  intro re
  induction re with
  | eps =>
    intro s caps k r h
    exact ⟨0, caps, Nat.zero_le _, by simpa [reMatch] using h⟩
  | lit l =>
    intro s caps k r h
    simp only [reMatch] at h
    cases hd : dropPref l s with
    | none => rw [hd] at h; cases h
    | some rest =>
      rw [hd] at h
      have hs : s = l ++ rest := (dropPref_eq_some l s rest).mp hd
      refine ⟨l.length, caps, ?_, ?_⟩
      · rw [hs]; simp
      · rw [hs, List.drop_left]; exact h
  | starC c =>
    intro s caps k r h
    simp only [reMatch] at h
    obtain ⟨i, hi, hki⟩ := tryFrom_spec _ _ _ h
    exact ⟨i, caps, le_trans hi (by simpa using (List.takeWhile_sublist _).length_le), hki⟩
  | cat a b iha ihb =>
    intro s caps k r h
    simp only [reMatch] at h
    obtain ⟨n1, caps1, hn1, h1⟩ := iha s caps _ r h
    obtain ⟨n2, caps2, hn2, h2⟩ := ihb (s.drop n1) caps1 k r h1
    refine ⟨n1 + n2, caps2, ?_, ?_⟩
    · have := List.length_drop n1 s
      omega
    · rw [List.drop_drop] at h2; exact h2
  | alt a b iha ihb =>
    intro s caps k r h
    simp only [reMatch] at h
    cases ha : reMatch a s caps k with
    | some r0 =>
      rw [ha] at h
      obtain ⟨n, caps2, hn, hk⟩ := iha s caps k r0 ha
      cases h
      exact ⟨n, caps2, hn, hk⟩
    | none =>
      rw [ha] at h
      exact ihb s caps k r h
  | opt a iha =>
    intro s caps k r h
    simp only [reMatch] at h
    cases ha : reMatch a s caps k with
    | some r0 =>
      rw [ha] at h
      obtain ⟨n, caps2, hn, hk⟩ := iha s caps k r0 ha
      cases h
      exact ⟨n, caps2, hn, hk⟩
    | none =>
      rw [ha] at h
      exact ⟨0, caps, Nat.zero_le _, by simpa using h⟩
  | grp i a iha =>
    intro s caps k r h
    simp only [reMatch] at h
    obtain ⟨n, caps2, hn, hk⟩ := iha s caps _ r h
    exact ⟨n, (i, s.take (s.length - (s.drop n).length)) :: caps2, hn, hk⟩

/-- The leftmost search decomposes its input around the match. -/
theorem reSearchAux_decomp (re : RE) :
    ∀ (s rev pre m post : List Char) (caps : List (Nat × List Char)),
      reSearchAux re rev s = some (pre, m, post, caps) →
      pre ++ (m ++ post) = rev.reverse ++ s := by
  intro s
  induction s with
  | nil =>
    intro rev pre m post caps h
    simp only [reSearchAux] at h
    cases hm : reMatch re [] [] (fun rest caps => some (rest, caps)) with
    | none => rw [hm] at h; cases h
    | some rc =>
      rw [hm] at h
      obtain ⟨n, caps2, hn, hk⟩ := reMatch_suffix re [] [] _ rc hm
      simp only [List.drop_nil, Option.some.injEq] at hk
      cases h
      rw [← hk]
      simp
  | cons c s2 ih =>
    intro rev pre m post caps h
    simp only [reSearchAux] at h
    cases hm : reMatch re (c :: s2) [] (fun rest caps => some (rest, caps)) with
    | none =>
      rw [hm] at h
      have := ih (c :: rev) pre m post caps h
      rw [this]
      simp
    | some rc =>
      rw [hm] at h
      obtain ⟨n, caps2, hn, hk⟩ := reMatch_suffix re (c :: s2) [] _ rc hm
      simp only [Option.some.injEq] at hk
      cases h
      rw [← hk]
      show rev.reverse ++ ((c :: s2).take ((c :: s2).length - ((c :: s2).drop n).length) ++ (c :: s2).drop n) = rev.reverse ++ (c :: s2)
      congr 1
      have hlen : (c :: s2).length - ((c :: s2).drop n).length = n := by
        rw [List.length_drop]
        omega
      rw [hlen, List.take_append_drop]

/-- The leftmost search decomposes the input string into the prefix before
the match, the matched text, and the rest. -/
theorem reSearch_decomp (re : RE) (s pre m post : List Char) (caps : List (Nat × List Char))
    (h : reSearch re s = some (pre, m, post, caps)) : s = pre ++ m ++ post := by
  have h2 := reSearchAux_decomp re s [] pre m post caps h
  simp only [List.reverse_nil, List.nil_append] at h2
  rw [← h2, List.append_assoc]

/-- C5 (counterexample): when no blank line follows the closing
`endduplicate` tag, `cleanDupicateTag` removes nothing (its regex demands
`\n\n` after the tag), so the emitted variant still contains the entire
duplicate directive text, and the file reports no error. -/
theorem c5_counterexample :
    cleanDupicateTag c5content0 = c5content0 ∧
    (processFile opts0 envNone0 comp0 stEmpty (("a.liquid".data), .file c5content0)).assets
      = [(("sections/red.liquid".data), c5content0)] ∧
    containsSub ("\x7b% duplicate %\x7d".data) c5content0 = true ∧
    (processFile opts0 envNone0 comp0 stEmpty (("a.liquid".data), .file c5content0)).errors = [] :=
  ⟨rfl, rfl, rfl, rfl⟩

/-- C5 (amended): the duplicate directive block is excised from the variant
template body exactly when the block regex — which requires a blank line
immediately after the closing tag — matches: the content splits as
`pre ++ block ++ post` and the cleaned content is `pre ++ post`; when the
regex does not match (in particular when no blank line follows the closing
tag), the content is left unchanged and the directive text survives into the
emitted variants. -/
theorem c5_strip_requires_blank_line (fc pre m post : List Char) (caps : List (Nat × List Char))
    (h : reSearch cleanDupRE fc = some (pre, m, post, caps)) :
    fc = pre ++ m ++ post ∧ cleanDupicateTag fc = pre ++ post := by
  refine ⟨reSearch_decomp _ _ _ _ _ _ h, ?_⟩
  simp [cleanDupicateTag, regexReplaceFirst, h]

/-- C5 (witness): the blank-line fixture instantiates the amended theorem —
the block (with its trailing blank line) is removed. -/
theorem c5_witness :
    reSearch cleanDupRE c5blank0 = some (("A".data),
      ("\x7b% duplicate %\x7d[\"red\"]\x7b% endduplicate %\x7d\n\n".data), ("B".data),
      [(1, ("[\"red\"]".data)), (2, ("[\"red\"]".data))]) ∧
    (c5blank0 = "A".data ++ ("\x7b% duplicate %\x7d[\"red\"]\x7b% endduplicate %\x7d\n\n".data) ++ "B".data ∧
      cleanDupicateTag c5blank0 = "A".data ++ "B".data) :=
  ⟨rfl, c5_strip_requires_blank_line c5blank0 ("A".data)
    ("\x7b% duplicate %\x7d[\"red\"]\x7b% endduplicate %\x7d\n\n".data) ("B".data)
    [(1, ("[\"red\"]".data)), (2, ("[\"red\"]".data))] rfl⟩

/-- C9 (witness): a batch over one file loading one module instantiates the
dependency-tracking theorem. -/
theorem c9_witness :
    ("/src/schema/m.js".data ∈ cacheKeys (buildSchemaMid opts0 envArr0 comp0 [(("a.liquid".data), .file schemaTag0)] stEmpty).cache) ∧
    ("/src/schema/m.js".data ∉ cacheKeys stEmpty.cache) ∧
    (("/src/schema/m.js".data ∈ (buildSchema opts0 envArr0 comp0 [(("a.liquid".data), .file schemaTag0)] stEmpty).fileDeps) ∧
      pathDirname ("/src/schema/m.js".data) ∈ (buildSchema opts0 envArr0 comp0 [(("a.liquid".data), .file schemaTag0)] stEmpty).contextDeps ∧
      cacheLookup (buildSchema opts0 envArr0 comp0 [(("a.liquid".data), .file schemaTag0)] stEmpty).cache ("/src/schema/m.js".data) = none) :=
  ⟨by decide, by decide,
    c9_dependency_tracking opts0 envArr0 comp0 [(("a.liquid".data), .file schemaTag0)] stEmpty
      ("/src/schema/m.js".data) (by decide) (by decide)⟩

end LSP
